import Mathlib

/-!
Verification of the mangahub connection-registry and fan-out broadcast engine.

The definitions below are a shallow embedding of the two protocol-listener
packages:
  - namespace `TCP` embeds `internal/tcp/server.go` (session registry,
    connection handler, dispatcher/broadcast loop);
  - namespace `UDP` embeds `internal/udp/server.go` (best-effort registration
    table, notification fan-out, datagram dispatch).

Go maps are embedded as association lists, `net.Conn` handles as naturals,
network addresses as strings, and `time.Now().Unix()` as an explicit `now`
parameter.  Write failures on a connection or address are supplied by an
oracle `write : Conn → Bool` (resp. `send : String → Bool`) so that theorems
can quantify over every pattern of per-recipient delivery failure.
-/

namespace TCP

/-- Connection handles: `net.Conn` values, identified by an opaque number. -/
abbrev Conn := Nat

/-- `ProgressUpdate` from `internal/tcp/server.go`. -/
structure ProgressUpdate where
  type : String
  user_id : String
  manga_id : String
  chapter : Int
  timestamp : Int
deriving DecidableEq

/-- `AuthResponse` from `internal/tcp/server.go`. -/
structure AuthResponse where
  type : String
  status : String
  error : String
deriving DecidableEq

/-- The session registry `connections : map[string]map[net.Conn]struct{}`,
embedded as an association list from user id to that user's connection set. -/
abbrev Registry := List (String × List Conn)

/-- Reading `s.connections[userID]`: the connection set of the first entry
for `u` (the zero value, an empty set, when `u` is absent). -/
def lookup (r : Registry) (u : String) : List Conn :=
  match r with
  | [] => []
  | (v, cs) :: rest => if v = u then cs else lookup rest u

/-- Whether the map has an entry for key `u` at all. -/
def hasKey (r : Registry) (u : String) : Bool :=
  match r with
  | [] => false
  | (v, _) :: rest => if v = u then true else hasKey rest u

/-- The `total` count computed by `registerClient`: connections summed over
all users. -/
def totalConns (r : Registry) : Nat :=
  match r with
  | [] => 0
  | (_, cs) :: rest => cs.length + totalConns rest

/-- The mutation part of `registerClient`:
`s.connections[userID][conn] = struct{}{}` (creating the inner set when the
user has none).  Map-insert semantics: adding a connection already in the
user's set changes nothing. -/
def insertConn (r : Registry) (u : String) (c : Conn) : Registry :=
  match r with
  | [] => [(u, [c])]
  | (v, cs) :: rest =>
    if v = u then (v, if c ∈ cs then cs else cs ++ [c]) :: rest
    else (v, cs) :: insertConn rest u c

/-- Result of `registerClient`: `nil` or `ErrServerAtCapacity`. -/
inductive RegResult where
  | ok
  | serverAtCapacity
deriving DecidableEq

/-- `registerClient` from `internal/tcp/server.go`: count the total
connections; if `total >= s.MaxClients` return `ErrServerAtCapacity` with no
mutation, otherwise insert the connection under the user. -/
def registerClient (maxClients : Nat) (r : Registry) (u : String) (c : Conn) :
    RegResult × Registry :=
  if maxClients ≤ totalConns r then (RegResult.serverAtCapacity, r)
  else (RegResult.ok, insertConn r u c)

/-- `unregisterClient` from `internal/tcp/server.go`: if the user has an
entry, delete the connection from its set (closing it) when present, and
delete the user's map entry when the set is left empty. -/
def unregisterClient (r : Registry) (u : String) (c : Conn) : Registry :=
  match r with
  | [] => []
  | (v, cs) :: rest =>
    if v = u then
      let cs' := cs.filter (fun x => x ≠ c)
      if cs'.isEmpty then rest else (v, cs') :: rest
    else (v, cs) :: unregisterClient rest u c

/-- Well-formedness of the registry as the image of a Go map of Go sets:
user keys are distinct and no connection repeats inside one user's set.
Every reachable registry state satisfies it. -/
def WF (r : Registry) : Prop :=
  (r.map Prod.fst).Nodup ∧ ∀ p ∈ r, p.2.Nodup

instance (r : Registry) : Decidable (WF r) := by
  unfold WF; infer_instance

/-- One call observed by the session registry: `registerClient` or
`unregisterClient`. -/
inductive Op where
  | reg (u : String) (c : Conn)
  | unreg (u : String) (c : Conn)
deriving DecidableEq

/-- One step of a register/unregister trace, threading the registry together
with the number of `registerClient` calls that returned success and the
number of `unregisterClient` calls that found a matching handle (the
`exists` branch of the Go code). -/
def stepOp (maxClients : Nat) (st : Registry × Nat × Nat) (op : Op) :
    Registry × Nat × Nat :=
  match op, st with
  | Op.reg u c, (r, s, m) =>
    match registerClient maxClients r u c with
    | (RegResult.ok, r') => (r', s + 1, m)
    | (RegResult.serverAtCapacity, r') => (r', s, m)
  | Op.unreg u c, (r, s, m) =>
    (unregisterClient r u c, s, if c ∈ lookup r u then m + 1 else m)

/-- Run a whole trace of registry calls from a starting state. -/
def runFrom (maxClients : Nat) (ops : List Op) (st : Registry × Nat × Nat) :
    Registry × Nat × Nat :=
  ops.foldl (stepOp maxClients) st

/-- A trace is handle-fresh from state `r` when no `registerClient` call in
it re-registers a connection already present in that user's set at the time
of the call.  The server establishes this: each accepted `net.Conn` is
registered once, by its own handler, before any unregister of it. -/
def freshFrom (maxClients : Nat) (r : Registry) : List Op → Bool
  | [] => true
  | Op.reg u c :: rest =>
    !(decide (c ∈ lookup r u)) &&
      freshFrom maxClients (registerClient maxClients r u c).2 rest
  | Op.unreg u c :: rest => freshFrom maxClients (unregisterClient r u c) rest

/-- A progress frame read by the handler's main loop: either it fails
`json.Unmarshal`, or it carries a `ProgressUpdate`. -/
inductive UpdFrame where
  | parseError
  | frame (u : ProgressUpdate)
deriving DecidableEq

/-- The body of the `Registered` read loop of `handleConn` for one frame:
unparseable frames and non-`progress` types are skipped (`none`); otherwise
the update — with user id defaulted to the authenticated user when the
client left it empty — is sent on the `Broadcast` channel (`some`). -/
def processUpdateFrame (authUser : String) (f : UpdFrame) :
    Option ProgressUpdate :=
  match f with
  | UpdFrame.parseError => none
  | UpdFrame.frame upd =>
    if upd.type ≠ "progress" then none
    else some ⟨upd.type,
               if upd.user_id = "" then authUser else upd.user_id,
               upd.manga_id, upd.chapter, upd.timestamp⟩

/-- The first frame of a connection: a read error (`none`), an unparseable
line, or an `AuthMessage` with its three fields. -/
inductive AuthFrame where
  | parseError
  | msg (ty : String) (user_id : String) (token : String)
deriving DecidableEq

/-- Outcome of the authentication phase of `handleConn`. -/
inductive AuthOutcome where
  | closedNoResponse
  | closedWithError (resp : AuthResponse)
  | enteredReadLoop (user : String) (resp : AuthResponse)
deriving DecidableEq

/-- The authentication phase of `handleConn` (everything before the read
loop): read the first frame, validate type and user id, then try
`registerClient`; on any failure send a negative `auth_response` and close
without entering the read loop. -/
def handleAuth (maxClients : Nat) (r : Registry) (conn : Conn)
    (first : Option AuthFrame) : AuthOutcome × Registry :=
  match first with
  | none => (AuthOutcome.closedNoResponse, r)
  | some AuthFrame.parseError =>
    (AuthOutcome.closedWithError ⟨"auth_response", "error", "invalid_auth_message"⟩, r)
  | some (AuthFrame.msg ty uid _tok) =>
    if ty ≠ "auth" then
      (AuthOutcome.closedWithError ⟨"auth_response", "error", "expected_auth_message"⟩, r)
    else if uid = "" then
      (AuthOutcome.closedWithError ⟨"auth_response", "error", "missing_user_id"⟩, r)
    else
      match registerClient maxClients r uid conn with
      | (RegResult.serverAtCapacity, r') =>
        (AuthOutcome.closedWithError ⟨"auth_response", "error", "server_at_capacity"⟩, r')
      | (RegResult.ok, r') =>
        (AuthOutcome.enteredReadLoop uid ⟨"auth_response", "ok", ""⟩, r')

/-- The write loop of `broadcastLoop`: one `conn.Write(data)` per connection
of the snapshot, in order; the record written is the marshalled update
itself, and a failed write (oracle `false`) is logged and does not stop the
loop. -/
def broadcastWrites (conns : List Conn) (rec : ProgressUpdate)
    (write : Conn → Bool) : List (Conn × ProgressUpdate × Bool) :=
  match conns with
  | [] => []
  | c :: rest => (c, rec, write c) :: broadcastWrites rest rec write

/-- The log line emitted after one broadcast. -/
inductive BroadcastLog where
  | toConnections (user : String) (count : Nat)
  | noActiveConnections (user : String)
deriving DecidableEq

/-- One iteration of `broadcastLoop` for an update taken off the `Broadcast`
channel: look up the target user's connections, write the marshalled update
to each, and log either the connection count or the no-active-connections
message.  Nothing in it is an error path. -/
def broadcastStep (r : Registry) (upd : ProgressUpdate)
    (write : Conn → Bool) :
    List (Conn × ProgressUpdate × Bool) × BroadcastLog :=
  let conns := lookup r upd.user_id
  let writes := broadcastWrites conns upd write
  if 0 < conns.length then (writes, BroadcastLog.toConnections upd.user_id conns.length)
  else (writes, BroadcastLog.noActiveConnections upd.user_id)

end TCP

namespace UDP

/-- `RegisterMessage` from `internal/udp/server.go`. -/
structure RegisterMessage where
  type : String
  user_id : String
  manga_ids : List String
  preferences : List String
  client_label : String
deriving DecidableEq

/-- `UnregisterMessage` from `internal/udp/server.go`. -/
structure UnregisterMessage where
  type : String
  user_id : String
  manga_ids : List String
deriving DecidableEq

/-- `RegisterResponse` from `internal/udp/server.go`. -/
structure RegisterResponse where
  type : String
  status : String
  message : String
deriving DecidableEq

/-- `Notification` from `internal/udp/server.go`. -/
structure Notification where
  type : String
  manga_id : String
  title : String
  chapter : Int
  message : String
  timestamp : Int
deriving DecidableEq

/-- `clientInfo` from `internal/udp/server.go`; the `net.UDPAddr` is an
opaque string. -/
structure ClientInfo where
  addr : String
  user_id : String
  manga_ids : List String
  preferences : List String
  label : String
deriving DecidableEq

/-- The registration table `clients []clientInfo`, in slice order. -/
abbrev Table := List ClientInfo

/-- `registerClient` from `internal/udp/server.go`: drop every existing
entry of this user (whatever its address), then append the new entry. -/
def registerClient (t : Table) (info : ClientInfo) : Table :=
  t.filter (fun c => c.user_id ≠ info.user_id) ++ [info]

/-- `overlap` from `internal/udp/server.go`: whether the two id lists share
an element. -/
def overlap (a b : List String) : Bool :=
  a.any (fun x => b.any (fun y => x == y))

/-- `unregisterClient` from `internal/udp/server.go`: keep entries of other
users; with no manga ids given drop all of this user's entries; otherwise
drop this user's entries that overlap the given ids or carry no ids, keeping
the rest.  The caller's address is passed but never consulted. -/
def unregisterClient (t : Table) (userID : String) (mangaIDs : List String) :
    Table :=
  t.filter (fun c =>
    if c.user_id ≠ userID then true
    else if mangaIDs.isEmpty then false
    else if overlap c.manga_ids mangaIDs || c.manga_ids.isEmpty then false
    else true)

/-- Modelled from the spec (§4.4 `remove`), for comparison with
`unregisterClient`: an entry of `userID` is deleted when the topic list is
empty, when its topic set intersects the given topics, or when its own topic
set is empty; every other entry is kept. -/
def specRemoveKeeps (userID : String) (topics : List String)
    (c : ClientInfo) : Bool :=
  c.user_id ≠ userID ||
    (!topics.isEmpty && !(c.manga_ids.any (fun x => topics.contains x)) &&
      !c.manga_ids.isEmpty)

/-- `handleRegister` from `internal/udp/server.go`: `none` for an
unmarshalable payload; reply with `missing_user_id` and leave the table
alone on an empty user id; otherwise upsert and reply `ok`. -/
def handleRegister (t : Table) (addr : String) (m : Option RegisterMessage) :
    Option RegisterResponse × Table :=
  match m with
  | none => (some ⟨"register_response", "error", "invalid_register_payload"⟩, t)
  | some msg =>
    if msg.user_id = "" then
      (some ⟨"register_response", "error", "missing_user_id"⟩, t)
    else
      (some ⟨"register_response", "ok", "registered"⟩,
       registerClient t ⟨addr, msg.user_id, msg.manga_ids, msg.preferences,
                         msg.client_label⟩)

/-- `handleUnregister` from `internal/udp/server.go`: an unmarshalable
payload or an empty user id returns with no reply at all; otherwise the
entries are removed and an `ok`/`unregistered` reply is sent.  The reply
component is `none` exactly when no datagram is written back. -/
def handleUnregister (t : Table) (_addr : String)
    (m : Option UnregisterMessage) : Option RegisterResponse × Table :=
  match m with
  | none => (none, t)
  | some msg =>
    if msg.user_id = "" then (none, t)
    else (some ⟨"register_response", "ok", "unregistered"⟩,
          unregisterClient t msg.user_id msg.manga_ids)

/-- `broadcast` from `internal/udp/server.go`: one `WriteToUDP` per entry of
the table snapshot, in order; a failed send (oracle `false`) is logged and
the loop continues. -/
def broadcast (t : Table) (n : Notification) (send : String → Bool) :
    List (String × Notification × Bool) :=
  match t with
  | [] => []
  | c :: rest => (c.addr, n, send c.addr) :: broadcast rest n send

/-- `handleNotification` from `internal/udp/server.go`: drop an
unmarshalable payload; fill in the timestamp with the current time when it
is zero; broadcast to every registered entry. -/
def handleNotification (t : Table) (now : Int) (n : Option Notification)
    (send : String → Bool) : List (String × Notification × Bool) :=
  match n with
  | none => []
  | some n =>
    let n' := if n.timestamp = 0 then
                ⟨n.type, n.manga_id, n.title, n.chapter, n.message, now⟩
              else n
    broadcast t n' send

/-- One datagram as seen by the receive loop of `Start`, after the envelope
parse: its `type` field selects the handler, and each handler's own
unmarshal may still fail (`none`). -/
inductive Datagram where
  | invalidJson
  | registerMsg (m : Option RegisterMessage)
  | unregisterMsg (m : Option UnregisterMessage)
  | chapterRelease (n : Option Notification)
  | unknown (ty : String)
deriving DecidableEq

/-- What one iteration of the receive loop produces: the reply datagram (if
any) to the sender, the new table, and the notification sends performed. -/
structure DispatchResult where
  reply : Option RegisterResponse
  table : Table
  sends : List (String × Notification × Bool)
deriving DecidableEq

/-- The dispatch switch of `Start` in `internal/udp/server.go`: route the
datagram by its `type` field to `handleRegister`, `handleUnregister` or
`handleNotification`; anything else is logged and dropped.  The sender's
address is used only as the reply address of register/unregister — the
notification path never inspects it. -/
def dispatch (t : Table) (now : Int) (send : String → Bool) (sender : String)
    (d : Datagram) : DispatchResult :=
  match d with
  | Datagram.invalidJson => ⟨none, t, []⟩
  | Datagram.registerMsg m =>
    let res := handleRegister t sender m
    ⟨res.1, res.2, []⟩
  | Datagram.unregisterMsg m =>
    let res := handleUnregister t sender m
    ⟨res.1, res.2, []⟩
  | Datagram.chapterRelease n => ⟨none, t, handleNotification t now n send⟩
  | Datagram.unknown _ => ⟨none, t, []⟩

end UDP

namespace TCP

theorem length_filter_ne_of_nodup (l : List Conn) (c : Conn)
    (hd : l.Nodup) (hm : c ∈ l) :
    (l.filter (fun x => x ≠ c)).length + 1 = l.length := by
  induction l with
  | nil => cases hm
  | cons a l ih =>
    rcases List.nodup_cons.mp hd with ⟨ha, hl⟩
    by_cases hac : a = c
    · subst hac
      have hcl : a ∉ l := ha
      have hfl : l.filter (fun x => x ≠ a) = l :=
        List.filter_eq_self.mpr (fun x hx => by
          simp only [decide_eq_true_eq]
          exact fun h => hcl (h ▸ hx))
      rw [List.filter_cons, if_neg (by simp), hfl]
      simp
    · have hcm : c ∈ l := by
        rcases List.mem_cons.mp hm with h | h
        · exact absurd h.symm hac
        · exact h
      have := ih hl hcm
      simp only [List.filter_cons, decide_eq_true_eq]
      rw [if_pos hac]
      simp only [List.length_cons]
      omega

theorem filter_ne_eq_self_of_not_mem (l : List Conn) (c : Conn)
    (hm : c ∉ l) : l.filter (fun x => x ≠ c) = l :=
  List.filter_eq_self.mpr (fun x hx => by
    simp only [decide_eq_true_eq]
    exact fun h => hm (h ▸ hx))

theorem totalConns_insertConn_le (r : Registry) (u : String) (c : Conn) :
    totalConns (insertConn r u c) ≤ totalConns r + 1 := by
  induction r with
  | nil => simp [insertConn, totalConns]
  | cons p rest ih =>
    obtain ⟨v, cs⟩ := p
    by_cases hv : v = u
    · simp only [insertConn, if_pos hv, totalConns]
      by_cases hc : c ∈ cs
      · simp [hc]
      · simp [hc]
        omega
    · simp only [insertConn, if_neg hv, totalConns]
      omega

theorem totalConns_insertConn_fresh (r : Registry) (u : String) (c : Conn)
    (h : c ∉ lookup r u) :
    totalConns (insertConn r u c) = totalConns r + 1 := by
  induction r with
  | nil => simp [insertConn, totalConns]
  | cons p rest ih =>
    obtain ⟨v, cs⟩ := p
    by_cases hv : v = u
    · have hc : c ∉ cs := by
        simpa [lookup, if_pos hv] using h
      simp only [insertConn, if_pos hv, totalConns, if_neg hc]
      simp
      omega
    · have h' : c ∉ lookup rest u := by
        simpa [lookup, if_neg hv] using h
      simp only [insertConn, if_neg hv, totalConns]
      rw [ih h']
      omega

theorem totalConns_unregisterClient_le (r : Registry) (u : String) (c : Conn) :
    totalConns (unregisterClient r u c) ≤ totalConns r := by
  induction r with
  | nil => simp [unregisterClient]
  | cons p rest ih =>
    obtain ⟨v, cs⟩ := p
    by_cases hv : v = u
    · simp only [unregisterClient, if_pos hv]
      by_cases he : (cs.filter (fun x => x ≠ c)).isEmpty
      · simp only [if_pos he, totalConns]
        omega
      · simp only [if_neg he, totalConns]
        have := List.length_filter_le (fun x => decide (x ≠ c)) cs
        omega
    · simp only [unregisterClient, if_neg hv, totalConns]
      omega

theorem WF_tail (p : String × List Conn) (rest : Registry)
    (h : WF (p :: rest)) : WF rest := by
  obtain ⟨h1, h2⟩ := h
  exact ⟨(List.nodup_cons.mp (by simpa using h1)).2,
         fun q hq => h2 q (List.mem_cons_of_mem p hq)⟩

theorem hasKey_iff_mem_keys (r : Registry) (u : String) :
    hasKey r u = true ↔ u ∈ r.map Prod.fst := by
  induction r with
  | nil => simp [hasKey]
  | cons p rest ih =>
    obtain ⟨v, cs⟩ := p
    by_cases hv : v = u
    · simp [hasKey, hv]
    · simp [hasKey, hv, ih, Ne.symm hv]

theorem lookup_eq_nil_of_not_mem_keys (r : Registry) (u : String)
    (h : u ∉ r.map Prod.fst) : lookup r u = [] := by
  induction r with
  | nil => rfl
  | cons p rest ih =>
    obtain ⟨v, cs⟩ := p
    have hv : v ≠ u := by
      intro he; exact h (by simp [he])
    simp only [lookup, if_neg hv]
    exact ih (fun hm => h (by simp; right; simpa using hm))

theorem mem_keys_insertConn (r : Registry) (u : String) (c : Conn)
    (w : String) (h : w ∈ (insertConn r u c).map Prod.fst) :
    w ∈ r.map Prod.fst ∨ w = u := by
  induction r with
  | nil =>
    simp [insertConn] at h
    exact Or.inr h
  | cons p rest ih =>
    obtain ⟨v, cs⟩ := p
    by_cases hv : v = u
    · simp only [insertConn, if_pos hv] at h
      simp only [List.map_cons, List.mem_cons] at h ⊢
      exact Or.inl h
    · simp only [insertConn, if_neg hv] at h
      simp only [List.map_cons, List.mem_cons] at h ⊢
      rcases h with h | h
      · exact Or.inl (Or.inl h)
      · rcases ih h with h' | h'
        · exact Or.inl (Or.inr h')
        · exact Or.inr h'

theorem mem_keys_unregisterClient (r : Registry) (u : String) (c : Conn)
    (w : String) (h : w ∈ (unregisterClient r u c).map Prod.fst) :
    w ∈ r.map Prod.fst := by
  induction r with
  | nil => simp [unregisterClient] at h
  | cons p rest ih =>
    obtain ⟨v, cs⟩ := p
    by_cases hv : v = u
    · simp only [unregisterClient, if_pos hv] at h
      by_cases he : (cs.filter (fun x => x ≠ c)).isEmpty
      · rw [if_pos he] at h
        simp only [List.map_cons, List.mem_cons]
        exact Or.inr h
      · rw [if_neg he] at h
        simp only [List.map_cons, List.mem_cons] at h ⊢
        exact h
    · simp only [unregisterClient, if_neg hv] at h
      simp only [List.map_cons, List.mem_cons] at h ⊢
      rcases h with h | h
      · exact Or.inl h
      · exact Or.inr (ih h)

theorem WF_insertConn (r : Registry) (u : String) (c : Conn)
    (h : WF r) : WF (insertConn r u c) := by
  induction r with
  | nil =>
    refine ⟨by simp [insertConn], ?_⟩
    intro p hp
    simp [insertConn] at hp
    subst hp
    simp
  | cons p rest ih =>
    obtain ⟨v, cs⟩ := p
    obtain ⟨h1, h2⟩ := h
    have hcs : cs.Nodup := h2 (v, cs) (by simp)
    by_cases hv : v = u
    · simp only [insertConn, if_pos hv]
      refine ⟨by simpa using h1, ?_⟩
      intro q hq
      rcases List.mem_cons.mp hq with hq | hq
      · subst hq
        by_cases hc : c ∈ cs
        · simpa [hc] using hcs
        · simp only [if_neg hc]
          rw [List.nodup_append]
          exact ⟨hcs, List.nodup_singleton c, by
            intro x hx hx'
            simp at hx'
            subst hx'
            exact hc hx⟩
      · exact h2 q (List.mem_cons_of_mem _ hq)
    · have hrest : WF rest := WF_tail (v, cs) rest ⟨h1, h2⟩
      obtain ⟨ih1, ih2⟩ := ih hrest
      simp only [insertConn, if_neg hv]
      constructor
      · simp only [List.map_cons]
        rw [List.nodup_cons]
        refine ⟨?_, ih1⟩
        intro hmem
        rcases mem_keys_insertConn rest u c v hmem with h' | h'
        · exact (List.nodup_cons.mp (by simpa using h1)).1 h'
        · exact hv h'
      · intro q hq
        rcases List.mem_cons.mp hq with hq | hq
        · subst hq; exact hcs
        · exact ih2 q hq

theorem WF_unregisterClient (r : Registry) (u : String) (c : Conn)
    (h : WF r) : WF (unregisterClient r u c) := by
  induction r with
  | nil => simpa [unregisterClient] using h
  | cons p rest ih =>
    obtain ⟨v, cs⟩ := p
    obtain ⟨h1, h2⟩ := h
    have hcs : cs.Nodup := h2 (v, cs) (by simp)
    have hrest : WF rest := WF_tail (v, cs) rest ⟨h1, h2⟩
    by_cases hv : v = u
    · simp only [unregisterClient, if_pos hv]
      by_cases he : (cs.filter (fun x => x ≠ c)).isEmpty
      · rw [if_pos he]
        exact hrest
      · rw [if_neg he]
        refine ⟨by simpa using h1, ?_⟩
        intro q hq
        rcases List.mem_cons.mp hq with hq | hq
        · subst hq
          exact List.Nodup.filter _ hcs
        · exact h2 q (List.mem_cons_of_mem _ hq)
    · obtain ⟨ih1, ih2⟩ := ih hrest
      simp only [unregisterClient, if_neg hv]
      constructor
      · simp only [List.map_cons]
        rw [List.nodup_cons]
        refine ⟨?_, ih1⟩
        intro hmem
        exact (List.nodup_cons.mp (by simpa using h1)).1
          (mem_keys_unregisterClient rest u c v hmem)
      · intro q hq
        rcases List.mem_cons.mp hq with hq | hq
        · subst hq; exact hcs
        · exact ih2 q hq

theorem totalConns_unregisterClient_mem (r : Registry) (u : String) (c : Conn)
    (hwf : WF r) (hm : c ∈ lookup r u) :
    totalConns (unregisterClient r u c) + 1 = totalConns r := by
  induction r with
  | nil => cases hm
  | cons p rest ih =>
    obtain ⟨v, cs⟩ := p
    have hcs : cs.Nodup := hwf.2 (v, cs) (by simp)
    have hrest : WF rest := WF_tail (v, cs) rest hwf
    by_cases hv : v = u
    · have hmc : c ∈ cs := by simpa [lookup, if_pos hv] using hm
      have hlen := length_filter_ne_of_nodup cs c hcs hmc
      simp only [unregisterClient, if_pos hv]
      by_cases he : (cs.filter (fun x => x ≠ c)).isEmpty
      · rw [if_pos he]
        have h0 : (cs.filter (fun x => x ≠ c)).length = 0 :=
          List.isEmpty_iff_length_eq_zero.mp he
        simp only [totalConns]
        omega
      · rw [if_neg he]
        simp only [totalConns]
        omega
    · have hm' : c ∈ lookup rest u := by
        simpa [lookup, if_neg hv] using hm
      simp only [unregisterClient, if_neg hv, totalConns]
      have := ih hrest hm'
      omega

theorem totalConns_unregisterClient_not_mem (r : Registry) (u : String)
    (c : Conn) (hm : c ∉ lookup r u) :
    totalConns (unregisterClient r u c) = totalConns r := by
  induction r with
  | nil => rfl
  | cons p rest ih =>
    obtain ⟨v, cs⟩ := p
    by_cases hv : v = u
    · have hmc : c ∉ cs := by simpa [lookup, if_pos hv] using hm
      have hfl : cs.filter (fun x => x ≠ c) = cs :=
        filter_ne_eq_self_of_not_mem cs c hmc
      simp only [unregisterClient, if_pos hv, hfl]
      by_cases he : cs.isEmpty
      · rw [if_pos he]
        have h0 : cs.length = 0 := List.isEmpty_iff_length_eq_zero.mp he
        simp only [totalConns]
        omega
      · rw [if_neg he]
    · have hm' : c ∉ lookup rest u := by
        simpa [lookup, if_neg hv] using hm
      simp only [unregisterClient, if_neg hv, totalConns, ih hm']

theorem stepOp_reg_atCapacity (maxClients : Nat) (r : Registry) (s m : Nat)
    (u : String) (c : Conn) (h : maxClients ≤ totalConns r) :
    stepOp maxClients (r, s, m) (Op.reg u c) = (r, s, m) := by
  simp [stepOp, registerClient, if_pos h]

theorem stepOp_reg_ok (maxClients : Nat) (r : Registry) (s m : Nat)
    (u : String) (c : Conn) (h : totalConns r < maxClients) :
    stepOp maxClients (r, s, m) (Op.reg u c) = (insertConn r u c, s + 1, m) := by
  simp [stepOp, registerClient, if_neg (Nat.not_le.mpr h)]

theorem stepOp_unreg (maxClients : Nat) (r : Registry) (s m : Nat)
    (u : String) (c : Conn) :
    stepOp maxClients (r, s, m) (Op.unreg u c)
      = (unregisterClient r u c, s, if c ∈ lookup r u then m + 1 else m) := rfl

theorem runFrom_nil (maxClients : Nat) (st : Registry × Nat × Nat) :
    runFrom maxClients [] st = st := rfl

theorem runFrom_cons (maxClients : Nat) (op : Op) (ops : List Op)
    (st : Registry × Nat × Nat) :
    runFrom maxClients (op :: ops) st
      = runFrom maxClients ops (stepOp maxClients st op) := rfl

theorem runFrom_append (maxClients : Nat) (ops ops' : List Op)
    (st : Registry × Nat × Nat) :
    runFrom maxClients (ops ++ ops') st
      = runFrom maxClients ops' (runFrom maxClients ops st) :=
  List.foldl_append _ _ _ _

theorem runFrom_cap (maxClients : Nat) (ops : List Op) :
    ∀ r s m, totalConns r ≤ maxClients →
      totalConns (runFrom maxClients ops (r, s, m)).1 ≤ maxClients := by
  induction ops with
  | nil => intro r s m h; simpa [runFrom_nil] using h
  | cons op ops ih =>
    intro r s m h
    cases op with
    | reg u c =>
      by_cases hc : maxClients ≤ totalConns r
      · rw [runFrom_cons, stepOp_reg_atCapacity maxClients r s m u c hc]
        exact ih r s m h
      · have hlt : totalConns r < maxClients := Nat.not_le.mp hc
        rw [runFrom_cons, stepOp_reg_ok maxClients r s m u c hlt]
        exact ih (insertConn r u c) (s + 1) m
          (le_trans (totalConns_insertConn_le r u c) hlt)
    | unreg u c =>
      rw [runFrom_cons, stepOp_unreg]
      exact ih (unregisterClient r u c) s _
        (le_trans (totalConns_unregisterClient_le r u c) h)

theorem runFrom_count (maxClients : Nat) (ops : List Op) :
    ∀ r s m, WF r → freshFrom maxClients r ops = true →
      totalConns (runFrom maxClients ops (r, s, m)).1
          + (runFrom maxClients ops (r, s, m)).2.2 + s
        = totalConns r + (runFrom maxClients ops (r, s, m)).2.1 + m := by
  induction ops with
  | nil =>
    intro r s m _ _
    simp [runFrom_nil]
    omega
  | cons op ops ih =>
    intro r s m hwf hf
    cases op with
    | reg u c =>
      simp only [freshFrom, Bool.and_eq_true, Bool.not_eq_true',
        decide_eq_false_iff_not] at hf
      obtain ⟨hcf, hrest⟩ := hf
      by_cases hcap : maxClients ≤ totalConns r
      · have hreg : (registerClient maxClients r u c).2 = r := by
          simp [registerClient, if_pos hcap]
        rw [runFrom_cons, stepOp_reg_atCapacity maxClients r s m u c hcap]
        exact ih r s m hwf (by rwa [hreg] at hrest)
      · have hlt : totalConns r < maxClients := Nat.not_le.mp hcap
        have hreg : (registerClient maxClients r u c).2 = insertConn r u c := by
          simp [registerClient, if_neg hcap]
        rw [runFrom_cons, stepOp_reg_ok maxClients r s m u c hlt]
        have h1 := ih (insertConn r u c) (s + 1) m (WF_insertConn r u c hwf)
          (by rwa [hreg] at hrest)
        have h2 := totalConns_insertConn_fresh r u c hcf
        omega
    | unreg u c =>
      simp only [freshFrom] at hf
      rw [runFrom_cons, stepOp_unreg]
      by_cases hm : c ∈ lookup r u
      · rw [if_pos hm]
        have h1 := ih (unregisterClient r u c) s (m + 1)
          (WF_unregisterClient r u c hwf) hf
        have h2 := totalConns_unregisterClient_mem r u c hwf hm
        omega
      · rw [if_neg hm]
        have h1 := ih (unregisterClient r u c) s m
          (WF_unregisterClient r u c hwf) hf
        have h2 := totalConns_unregisterClient_not_mem r u c hm
        omega

theorem unregisterClient_of_not_mem_keys (r : Registry) (u : String)
    (c : Conn) (h : u ∉ r.map Prod.fst) : unregisterClient r u c = r := by
  induction r with
  | nil => rfl
  | cons p rest ih =>
    obtain ⟨v, cs⟩ := p
    have hv : v ≠ u := by
      intro he
      exact h (by rw [List.map_cons, he]; exact List.mem_cons_self _ _)
    have h' : u ∉ rest.map Prod.fst := by
      intro hm
      exact h (by rw [List.map_cons]; exact List.mem_cons_of_mem _ hm)
    simp only [unregisterClient, if_neg hv]
    rw [ih h']

theorem unregisterClient_cons_self (w : String) (cs : List Conn)
    (rest : Registry) (c : Conn) :
    unregisterClient ((w, cs) :: rest) w c
      = if (cs.filter (fun x => x ≠ c)).isEmpty then rest
        else (w, cs.filter (fun x => x ≠ c)) :: rest := by
  simp [unregisterClient]

theorem lookup_cons_self (w : String) (cs : List Conn) (rest : Registry) :
    lookup ((w, cs) :: rest) w = cs := by
  simp [lookup]

theorem lookup_cons_ne (w : String) (cs : List Conn) (rest : Registry)
    (v : String) (h : w ≠ v) : lookup ((w, cs) :: rest) v = lookup rest v := by
  simp [lookup, h]

theorem lookup_unregisterClient (r : Registry) (u : String) (c : Conn)
    (hk : (r.map Prod.fst).Nodup) (v : String) :
    lookup (unregisterClient r u c) v
      = if v = u then (lookup r u).filter (fun x => x ≠ c)
        else lookup r v := by
  induction r with
  | nil =>
    by_cases hv : v = u
    · simp [unregisterClient, lookup, if_pos hv]
    · simp [unregisterClient, lookup, if_neg hv]
  | cons p rest ih =>
    obtain ⟨w, cs⟩ := p
    rw [List.map_cons, List.nodup_cons] at hk
    obtain ⟨hw, hk'⟩ := hk
    by_cases hwu : w = u
    · subst hwu
      rw [unregisterClient_cons_self, lookup_cons_self]
      by_cases he : (cs.filter (fun x => x ≠ c)).isEmpty
      · rw [if_pos he]
        have hce : cs.filter (fun x => x ≠ c) = [] :=
          List.isEmpty_iff.mp he
        by_cases hv : v = w
        · subst hv
          rw [if_pos rfl, hce]
          exact lookup_eq_nil_of_not_mem_keys rest v (by simpa using hw)
        · rw [if_neg hv, lookup_cons_ne w cs rest v (fun h => hv h.symm)]
      · rw [if_neg he]
        by_cases hv : v = w
        · subst hv
          rw [if_pos rfl, lookup_cons_self]
        · rw [if_neg hv, lookup_cons_ne w _ rest v (fun h => hv h.symm),
              lookup_cons_ne w cs rest v (fun h => hv h.symm)]
    · simp only [unregisterClient, if_neg hwu]
      by_cases hvw : w = v
      · subst hvw
        rw [if_neg (fun h : w = u => hwu h), lookup_cons_self,
            lookup_cons_self]
      · rw [lookup_cons_ne w cs _ v hvw, lookup_cons_ne w cs rest v hvw,
            ih hk', lookup_cons_ne w cs rest u hwu]

theorem hasKey_unregisterClient_empty (r : Registry) (u : String) (c : Conn)
    (hk : (r.map Prod.fst).Nodup)
    (h : (lookup r u).filter (fun x => x ≠ c) = []) :
    hasKey (unregisterClient r u c) u = false := by
  induction r with
  | nil => rfl
  | cons p rest ih =>
    obtain ⟨w, cs⟩ := p
    rw [List.map_cons, List.nodup_cons] at hk
    obtain ⟨hw, hk'⟩ := hk
    by_cases hwu : w = u
    · subst hwu
      rw [lookup_cons_self] at h
      have he : (cs.filter (fun x => x ≠ c)).isEmpty := by
        rw [h]; rfl
      rw [unregisterClient_cons_self, if_pos he]
      cases hhk : hasKey rest w with
      | false => rfl
      | true =>
        exact absurd ((hasKey_iff_mem_keys rest w).mp hhk) (by simpa using hw)
    · have h' : (lookup rest u).filter (fun x => x ≠ c) = [] := by
        rw [lookup_cons_ne w cs rest u hwu] at h
        exact h
      simp only [unregisterClient, if_neg hwu, hasKey, if_neg hwu]
      exact ih hk' h'

theorem unregisterClient_idem (r : Registry) (u : String) (c : Conn)
    (hk : (r.map Prod.fst).Nodup) :
    unregisterClient (unregisterClient r u c) u c
      = unregisterClient r u c := by
  induction r with
  | nil => rfl
  | cons p rest ih =>
    obtain ⟨w, cs⟩ := p
    rw [List.map_cons, List.nodup_cons] at hk
    obtain ⟨hw, hk'⟩ := hk
    by_cases hwu : w = u
    · subst hwu
      rw [unregisterClient_cons_self]
      by_cases he : (cs.filter (fun x => x ≠ c)).isEmpty
      · rw [if_pos he]
        exact unregisterClient_of_not_mem_keys rest w c (by simpa using hw)
      · rw [if_neg he]
        have hc' : c ∉ cs.filter (fun x => x ≠ c) := by
          intro hmem
          have := (List.mem_filter.mp hmem).2
          simp at this
        have hfl : (cs.filter (fun x => x ≠ c)).filter (fun x => x ≠ c)
            = cs.filter (fun x => x ≠ c) :=
          filter_ne_eq_self_of_not_mem _ c hc'
        rw [unregisterClient_cons_self, hfl, if_neg he]
    · simp only [unregisterClient, if_neg hwu]
      rw [ih hk']

theorem broadcastWrites_length (conns : List Conn) (rec : ProgressUpdate)
    (write : Conn → Bool) :
    (broadcastWrites conns rec write).length = conns.length := by
  induction conns with
  | nil => rfl
  | cons c rest ih => simp [broadcastWrites, ih]

theorem broadcastWrites_map_fst (conns : List Conn) (rec : ProgressUpdate)
    (write : Conn → Bool) :
    (broadcastWrites conns rec write).map (fun w => w.1) = conns := by
  induction conns with
  | nil => rfl
  | cons c rest ih => simp [broadcastWrites, ih]

theorem broadcastWrites_map_val {α : Type} (f : ProgressUpdate → α)
    (conns : List Conn) (rec : ProgressUpdate) (write : Conn → Bool) :
    (broadcastWrites conns rec write).map (fun w => f w.2.1)
      = conns.map (fun _ => f rec) := by
  induction conns with
  | nil => rfl
  | cons c rest ih => simp [broadcastWrites, ih]

theorem broadcastStep_fst (r : Registry) (upd : ProgressUpdate)
    (write : Conn → Bool) :
    (broadcastStep r upd write).1
      = broadcastWrites (lookup r upd.user_id) upd write := by
  simp only [broadcastStep]
  split
  · rfl
  · rfl

theorem broadcastStep_snd_of_empty (r : Registry) (upd : ProgressUpdate)
    (write : Conn → Bool) (h : lookup r upd.user_id = []) :
    (broadcastStep r upd write).2
      = BroadcastLog.noActiveConnections upd.user_id := by
  simp [broadcastStep, h]

end TCP

namespace UDP

theorem broadcast_map_addr (t : Table) (n : Notification)
    (send : String → Bool) :
    (broadcast t n send).map (fun w => w.1) = t.map (fun c => c.addr) := by
  induction t with
  | nil => rfl
  | cons c rest ih => simp [broadcast, ih]

theorem broadcast_map_val {α : Type} (f : Notification → α) (t : Table)
    (n : Notification) (send : String → Bool) :
    (broadcast t n send).map (fun w => f w.2.1) = t.map (fun _ => f n) := by
  induction t with
  | nil => rfl
  | cons c rest ih => simp [broadcast, ih]

theorem handleNotification_map_addr (t : Table) (now : Int)
    (n : Notification) (send : String → Bool) :
    (handleNotification t now (some n) send).map (fun w => w.1)
      = t.map (fun c => c.addr) := by
  simp only [handleNotification]
  split
  · exact broadcast_map_addr t _ send
  · exact broadcast_map_addr t _ send

theorem contains_eq_any (b : List String) (x : String) :
    b.contains x = b.any (fun y => x == y) := by
  induction b with
  | nil => rfl
  | cons y rest ih =>
    simp only [List.contains_cons, List.any_cons]
    rw [ih]

theorem overlap_eq_any_contains (a b : List String) :
    overlap a b = a.any (fun x => b.contains x) := by
  unfold overlap
  congr 1
  funext x
  exact (contains_eq_any b x).symm

end UDP

namespace TCP

/-- C1: code-bug exhibit.  On a connection authenticated as "alice", an
update frame carrying the non-empty spoofed user id "mallory" is handed to
the dispatcher still carrying "mallory": the read loop only fills the user
id in when the client left it empty and does not override a non-empty
client-supplied value, although both the spec and the code's own comment
call for forcing the authenticated identity. -/
theorem processUpdateFrame_keeps_spoofed_user_id :
    processUpdateFrame "alice"
        (UpdFrame.frame ⟨"progress", "mallory", "m1", 3, 5⟩)
      = some ⟨"progress", "mallory", "m1", 3, 5⟩ ∧
    ("mallory" : String) ≠ "alice" := by
  constructor
  · rfl
  · decide

/-- C2 (amended): along every trace of registerClient/unregisterClient
calls started from the empty registry, the total live handle count never
exceeds the configured maximum; a register call arriving when the count is
at or above the maximum returns ErrServerAtCapacity and leaves the registry
and counters unchanged; and — provided no register call re-registers a
connection handle already live for that user, as holds in the server where
each accepted connection is registered exactly once — the handle count
equals the number of successful register calls minus the number of
unregister calls that found a matching handle. -/
theorem registry_trace_capacity_and_count (maxClients : Nat)
    (ops : List Op) :
    totalConns (runFrom maxClients ops ([], 0, 0)).1 ≤ maxClients ∧
    (∀ u c, maxClients ≤ totalConns (runFrom maxClients ops ([], 0, 0)).1 →
      registerClient maxClients (runFrom maxClients ops ([], 0, 0)).1 u c
          = (RegResult.serverAtCapacity,
             (runFrom maxClients ops ([], 0, 0)).1) ∧
      runFrom maxClients (ops ++ [Op.reg u c]) ([], 0, 0)
          = runFrom maxClients ops ([], 0, 0)) ∧
    (freshFrom maxClients [] ops = true →
      totalConns (runFrom maxClients ops ([], 0, 0)).1
          + (runFrom maxClients ops ([], 0, 0)).2.2
        = (runFrom maxClients ops ([], 0, 0)).2.1) := by
  refine ⟨?_, ?_, ?_⟩
  · exact runFrom_cap maxClients ops [] 0 0 (by simp [totalConns])
  · intro u c h
    refine ⟨by unfold registerClient; rw [if_pos h], ?_⟩
    rw [runFrom_append, runFrom_cons, runFrom_nil]
    exact stepOp_reg_atCapacity maxClients
      (runFrom maxClients ops ([], 0, 0)).1
      (runFrom maxClients ops ([], 0, 0)).2.1
      (runFrom maxClients ops ([], 0, 0)).2.2 u c h
  · intro hf
    have hwfnil : WF ([] : Registry) := ⟨List.nodup_nil, by simp⟩
    have h := runFrom_count maxClients ops [] 0 0 hwfnil hf
    simp only [totalConns] at h
    omega

/-- C2 witness: the amended invariant at the concrete handle-fresh trace
register(alice,0), register(alice,1), unregister(alice,0), capacity 2. -/
theorem registry_trace_capacity_and_count_witness :
    freshFrom 2 []
        [Op.reg "alice" 0, Op.reg "alice" 1, Op.unreg "alice" 0] = true ∧
    totalConns (runFrom 2
          [Op.reg "alice" 0, Op.reg "alice" 1, Op.unreg "alice" 0]
          ([], 0, 0)).1
        + (runFrom 2
          [Op.reg "alice" 0, Op.reg "alice" 1, Op.unreg "alice" 0]
          ([], 0, 0)).2.2
      = (runFrom 2
          [Op.reg "alice" 0, Op.reg "alice" 1, Op.unreg "alice" 0]
          ([], 0, 0)).2.1 :=
  ⟨by decide,
   (registry_trace_capacity_and_count 2
      [Op.reg "alice" 0, Op.reg "alice" 1, Op.unreg "alice" 0]).2.2
     (by decide)⟩

/-- C2 counterexample: with capacity 5, registering the same (user, handle)
pair twice is accepted twice (the second insert is a map no-op) yet leaves
one live handle, so the handle count differs from successful registers
minus matching unregisters — the claim fails for sequences that re-register
a live handle. -/
theorem registry_trace_count_counterexample :
    (runFrom 5 [Op.reg "u" 0, Op.reg "u" 0] ([], 0, 0)).2.1 = 2 ∧
    (runFrom 5 [Op.reg "u" 0, Op.reg "u" 0] ([], 0, 0)).2.2 = 0 ∧
    totalConns (runFrom 5 [Op.reg "u" 0, Op.reg "u" 0] ([], 0, 0)).1
      ≠ (runFrom 5 [Op.reg "u" 0, Op.reg "u" 0] ([], 0, 0)).2.1
        - (runFrom 5 [Op.reg "u" 0, Op.reg "u" 0] ([], 0, 0)).2.2 := by
  refine ⟨by decide, by decide, by decide⟩

/-- C3: one broadcast for a user whose registry snapshot holds N
connections performs exactly N write attempts, one per connection of the
snapshot, independently of which writes fail; a user with an empty snapshot
yields no writes and the no-active-connections log line — not an error. -/
theorem broadcast_write_attempts (r : Registry) (upd : ProgressUpdate)
    (write write' : Conn → Bool) (N : Nat)
    (h : (lookup r upd.user_id).length = N) :
    (broadcastStep r upd write).1.length = N ∧
    (broadcastStep r upd write).1.map (fun w => w.1)
        = lookup r upd.user_id ∧
    (broadcastStep r upd write).1.map (fun w => w.1)
        = (broadcastStep r upd write').1.map (fun w => w.1) ∧
    (N = 0 → (broadcastStep r upd write).1 = [] ∧
      (broadcastStep r upd write).2
          = BroadcastLog.noActiveConnections upd.user_id) := by
  have hf := broadcastStep_fst r upd write
  have hf' := broadcastStep_fst r upd write'
  refine ⟨?_, ?_, ?_, ?_⟩
  · rw [hf, broadcastWrites_length, h]
  · rw [hf, broadcastWrites_map_fst]
  · rw [hf, hf', broadcastWrites_map_fst, broadcastWrites_map_fst]
  · intro h0
    have hl : lookup r upd.user_id = [] := by
      rw [h0] at h
      exact List.length_eq_zero.mp h
    refine ⟨?_, broadcastStep_snd_of_empty r upd write hl⟩
    rw [hf, hl]
    rfl

/-- C3 witness: the write-attempt count at a registry where alice has the
two connections 4 and 9, with one oracle failing every write and another
failing only connection 4. -/
theorem broadcast_write_attempts_witness :
    (lookup [("alice", [4, 9])]
        (ProgressUpdate.mk "progress" "alice" "m1" 3 5).user_id).length = 2 ∧
    (broadcastStep [("alice", [4, 9])]
        ⟨"progress", "alice", "m1", 3, 5⟩ (fun _ => false)).1.length = 2 :=
  ⟨by decide,
   (broadcast_write_attempts [("alice", [4, 9])]
      ⟨"progress", "alice", "m1", 3, 5⟩ (fun _ => false)
      (fun c => c == 4) 2 (by decide)).1⟩

end TCP

namespace TCP

/-- C6: on a well-formed registry, unregisterClient removes exactly the
given handle from the given user's set (every other handle and every other
user's set reads back unchanged); if the user's set becomes empty the
user's map entry is removed entirely; and running the same unregister a
second time changes nothing (idempotence). -/
theorem unregisterClient_exact_and_idempotent (r : Registry) (u : String)
    (c : Conn) (hk : (r.map Prod.fst).Nodup) :
    (∀ v, lookup (unregisterClient r u c) v
        = if v = u then (lookup r u).filter (fun x => x ≠ c)
          else lookup r v) ∧
    ((lookup r u).filter (fun x => x ≠ c) = [] →
      hasKey (unregisterClient r u c) u = false) ∧
    unregisterClient (unregisterClient r u c) u c
        = unregisterClient r u c :=
  ⟨lookup_unregisterClient r u c hk,
   hasKey_unregisterClient_empty r u c hk,
   unregisterClient_idem r u c hk⟩

/-- C6 witness: the unregister properties at the registry where alice holds
connections 1 and 2 and bob holds connection 3, removing bob's only
handle. -/
theorem unregisterClient_exact_and_idempotent_witness :
    ((([("alice", [1, 2]), ("bob", [3])] : Registry).map Prod.fst).Nodup) ∧
    ((∀ v, lookup (unregisterClient
            [("alice", [1, 2]), ("bob", [3])] "bob" 3) v
        = if v = "bob"
          then (lookup [("alice", [1, 2]), ("bob", [3])] "bob").filter
              (fun x => x ≠ 3)
          else lookup [("alice", [1, 2]), ("bob", [3])] v) ∧
     ((lookup [("alice", [1, 2]), ("bob", [3])] "bob").filter
          (fun x => x ≠ 3) = [] →
       hasKey (unregisterClient
            [("alice", [1, 2]), ("bob", [3])] "bob" 3) "bob" = false) ∧
     unregisterClient (unregisterClient
          [("alice", [1, 2]), ("bob", [3])] "bob" 3) "bob" 3
        = unregisterClient [("alice", [1, 2]), ("bob", [3])] "bob" 3) :=
  ⟨by decide,
   unregisterClient_exact_and_idempotent
     [("alice", [1, 2]), ("bob", [3])] "bob" 3 (by decide)⟩

/-- C7: a first frame that parses as an auth message with an empty user id
makes the handler send the negative auth_response naming
missing_user_id and close: the registry is left untouched (no
registration) and the read loop is never entered. -/
theorem handleAuth_missing_user_id (maxClients : Nat) (r : Registry)
    (conn : Conn) (tok : String) :
    handleAuth maxClients r conn (some (AuthFrame.msg "auth" "" tok))
      = (AuthOutcome.closedWithError
          ⟨"auth_response", "error", "missing_user_id"⟩, r) ∧
    ∀ user resp, (handleAuth maxClients r conn
        (some (AuthFrame.msg "auth" "" tok))).1
      ≠ AuthOutcome.enteredReadLoop user resp := by
  constructor
  · rfl
  · intro user resp h
    exact absurd h (by simp [handleAuth])

/-- C7 witness: the rejection at a concrete empty-user-id auth frame, on an
empty registry with capacity 3 and connection handle 0. -/
theorem handleAuth_missing_user_id_witness :
    handleAuth 3 [] 0 (some (AuthFrame.msg "auth" "" "tok"))
      = (AuthOutcome.closedWithError
          ⟨"auth_response", "error", "missing_user_id"⟩, []) :=
  (handleAuth_missing_user_id 3 [] 0 "tok").1

end TCP

namespace UDP

/-- C4: registerClient is a last-register-wins upsert — afterwards the
table holds exactly one entry for the registered user, the new one, with
every prior entry of that user dropped whatever address it carried, while
the entries of every other user are exactly what they were. -/
theorem registerClient_last_register_wins (t : Table) (info : ClientInfo) :
    (registerClient t info).filter
        (fun c => c.user_id = info.user_id) = [info] ∧
    ∀ v, v ≠ info.user_id →
      (registerClient t info).filter (fun c => c.user_id = v)
        = t.filter (fun c => c.user_id = v) := by
  constructor
  · rw [registerClient, List.filter_append]
    have h1 : (t.filter (fun c => c.user_id ≠ info.user_id)).filter
        (fun c => c.user_id = info.user_id) = [] := by
      rw [List.filter_eq_nil_iff]
      intro a ha
      have h2 := (List.mem_filter.mp ha).2
      simp at h2 ⊢
      exact h2
    rw [h1]
    simp
  · intro v hv
    rw [registerClient, List.filter_append]
    have h2 : ([info] : Table).filter (fun c => c.user_id = v) = [] := by
      have h3 : ¬ info.user_id = v := fun h => hv h.symm
      simp [h3]
    rw [h2, List.append_nil, List.filter_filter]
    apply List.filter_congr
    intro x _
    by_cases hxv : x.user_id = v
    · simp [hxv, fun h : v = info.user_id => hv h]
    · simp [hxv]

/-- C4 witness: re-registering bob from a new address drops bob's old entry
and leaves carol's entry untouched. -/
theorem registerClient_last_register_wins_witness :
    (("carol" : String) ≠ "bob") ∧
    (registerClient
        [⟨"a1", "bob", ["c1"], [], ""⟩, ⟨"a2", "carol", [], [], ""⟩]
        ⟨"a3", "bob", ["c2"], [], ""⟩).filter
        (fun c => c.user_id = "carol")
      = ([⟨"a1", "bob", ["c1"], [], ""⟩,
          ⟨"a2", "carol", [], [], ""⟩] : Table).filter
        (fun c => c.user_id = "carol") :=
  ⟨by decide,
   (registerClient_last_register_wins
      [⟨"a1", "bob", ["c1"], [], ""⟩, ⟨"a2", "carol", [], [], ""⟩]
      ⟨"a3", "bob", ["c2"], [], ""⟩).2 "carol" (by decide)⟩

/-- C5: unregisterClient implements exactly the spec's remove semantics —
with an empty topic list every entry of the user goes; with a non-empty
list exactly the user's entries whose topic set intersects it or is itself
empty go; entries with a non-empty non-intersecting topic set and all other
users' entries stay. -/
theorem unregisterClient_matches_spec_remove (t : Table) (userID : String)
    (topics : List String) :
    unregisterClient t userID topics
      = t.filter (specRemoveKeeps userID topics) := by
  unfold unregisterClient
  apply List.filter_congr
  intro c _
  unfold specRemoveKeeps
  rw [← overlap_eq_any_contains]
  by_cases hu : c.user_id = userID
  · by_cases ht : topics.isEmpty
    · simp [hu, ht]
    · by_cases hov : overlap c.manga_ids topics = true
      · simp [hu, ht, hov]
      · by_cases hie : c.manga_ids.isEmpty
        · simp [hu, ht, hov, hie]
        · simp [hu, ht, hov, hie]
  · simp [hu]

end UDP


namespace UDP

/-- C10: a chapter_release datagram, whoever sent it, is broadcast to every
currently registered entry: the processing result is identical for any two
sender addresses, no rejection reply is produced and the table is left
unchanged — the publish path carries no authentication or authorization
check. -/
theorem chapter_release_broadcast_no_auth (t : Table) (now : Int)
    (send : String → Bool) (sender sender' : String) (n : Notification) :
    (dispatch t now send sender
        (Datagram.chapterRelease (some n))).sends.map (fun w => w.1)
      = t.map (fun c => c.addr) ∧
    dispatch t now send sender (Datagram.chapterRelease (some n))
      = dispatch t now send sender' (Datagram.chapterRelease (some n)) ∧
    (dispatch t now send sender
        (Datagram.chapterRelease (some n))).reply = none ∧
    (dispatch t now send sender
        (Datagram.chapterRelease (some n))).table = t := by
  refine ⟨?_, rfl, rfl, rfl⟩
  exact handleNotification_map_addr t now n send

end UDP

/-- C8 counterexample: an update event with timestamp 0 broadcast on the
reliable channel to a user with one live connection is written to that
connection with its timestamp still 0 — broadcastLoop marshals the update
as-is and never populates the timestamp. -/
theorem tcp_broadcast_keeps_zero_timestamp :
    ((TCP.broadcastStep [("alice", [7])]
        ⟨"progress", "alice", "m1", 3, 0⟩ (fun _ => true)).1.map
      (fun w => w.2.1.timestamp)) = [0] := by decide

/-- C8 (amended): reliable-channel broadcast records carry exactly the
incoming event's timestamp — a zero timestamp reaches every connection
unchanged — while it is the connectionless channel's notification path that
populates a zero timestamp with the current server time before fan-out and
passes a non-zero one through. -/
theorem broadcast_timestamp_passthrough_and_udp_population
    (r : TCP.Registry) (upd : TCP.ProgressUpdate)
    (write : TCP.Conn → Bool) (t : UDP.Table) (now : Int)
    (n : UDP.Notification) (send : String → Bool) :
    (TCP.broadcastStep r upd write).1.map (fun w => w.2.1.timestamp)
        = (TCP.lookup r upd.user_id).map (fun _ => upd.timestamp) ∧
    (n.timestamp = 0 →
      (UDP.handleNotification t now (some n) send).map
          (fun w => w.2.1.timestamp) = t.map (fun _ => now)) ∧
    (n.timestamp ≠ 0 →
      (UDP.handleNotification t now (some n) send).map
          (fun w => w.2.1.timestamp) = t.map (fun _ => n.timestamp)) := by
  refine ⟨?_, ?_, ?_⟩
  · rw [TCP.broadcastStep_fst,
        TCP.broadcastWrites_map_val (fun u => u.timestamp)]
  · intro h0
    simp only [UDP.handleNotification, if_pos h0]
    exact UDP.broadcast_map_val (fun m => m.timestamp) t _ send
  · intro h0
    simp only [UDP.handleNotification, if_neg h0]
    exact UDP.broadcast_map_val (fun m => m.timestamp) t n send

/-- C8 witness: the populated timestamp on the connectionless channel for a
zero-timestamp notification at server time 99, one registered entry. -/
theorem broadcast_timestamp_passthrough_witness :
    ((0 : Int) = 0) ∧
    (UDP.handleNotification [⟨"a1", "bob", [], [], ""⟩] 99
        (some ⟨"chapter_release", "m1", "T", 2, "msg", 0⟩)
        (fun _ => true)).map (fun w => w.2.1.timestamp)
      = ([⟨"a1", "bob", [], [], ""⟩] : UDP.Table).map
          (fun _ => (99 : Int)) :=
  ⟨rfl,
   (broadcast_timestamp_passthrough_and_udp_population
      [] ⟨"progress", "", "", 0, 0⟩ (fun _ => true)
      [⟨"a1", "bob", [], [], ""⟩] 99
      ⟨"chapter_release", "m1", "T", 2, "msg", 0⟩ (fun _ => true)).2.1 rfl⟩

/-- C9 counterexample: a connectionless unregister datagram with an empty
user id produces no reply datagram at all — handleUnregister returns before
any sendRegisterResponse — so the claim that it receives a reply of the
register_response shape fails. -/
theorem udp_unregister_missing_user_id_silent :
    (UDP.handleUnregister [⟨"1.1.1.1:9", "bob", ["c1"], [], ""⟩] "2.2.2.2:7"
        (some ⟨"unregister", "", []⟩)).1 = none := rfl

/-- C9 (amended): a missing user identity is reported back to the caller on
the reliable channel's auth frame (negative auth_response naming
missing_user_id) and on a connectionless register (error
register_response), but a connectionless unregister with an empty user id
is silently dropped: no reply of any shape is sent and the table is left
unchanged. -/
theorem missing_user_id_error_reporting (maxClients : Nat)
    (r : TCP.Registry) (conn : TCP.Conn) (tok : String) (t : UDP.Table)
    (addr : String) (mids prefs : List String) (lbl : String)
    (mids2 : List String) :
    TCP.handleAuth maxClients r conn
        (some (TCP.AuthFrame.msg "auth" "" tok))
      = (TCP.AuthOutcome.closedWithError
          ⟨"auth_response", "error", "missing_user_id"⟩, r) ∧
    UDP.handleRegister t addr (some ⟨"register", "", mids, prefs, lbl⟩)
      = (some ⟨"register_response", "error", "missing_user_id"⟩, t) ∧
    UDP.handleUnregister t addr (some ⟨"unregister", "", mids2⟩)
      = (none, t) :=
  ⟨rfl, rfl, rfl⟩
